import Mathlib
namespace Gotify
/-- Embedding of `CachedMessage` (src-tauri/src/main.rs, struct CachedMessage). -/
structure CachedMessage where
  id : Int
  app_id : Int
  title : String
  message : String
  priority : Int
  app : String
  app_icon : Option String
  date : String
deriving Repr, DecidableEq
/-- Embedding of `GotifyMessageWire` (raw wire message). -/
structure GotifyMessageWire where
  id : Int
  appid : Int
  title : String
  message : String
  priority : Int
  date : String
deriving Repr, DecidableEq
/-- Embedding of `ApplicationMeta` (display name and icon for an application id). -/
structure ApplicationMeta where
  name : String
  icon_url : String
deriving Repr, DecidableEq
/-- Embedding of `StoredSettings` (src-tauri/src/settings.rs); only the fields the
message-cache and notify paths read are carried with their source types. -/
structure StoredSettings where
  base_url : String
  token : Option String
  min_priority : Int
  cache_limit : Nat
  launch_at_login : Bool
  start_minimized_to_tray : Bool
  pause_until : Option Nat
  pause_mode : Option String
  quiet_hours_start : Option Nat
  quiet_hours_end : Option Nat
deriving Repr, DecidableEq
/-- Constant `DEFAULT_CACHE_LIMIT` from src-tauri/src/consts.rs. -/
def DEFAULT_CACHE_LIMIT : Nat := 100
/-- Constant `MAX_API_PAGE_LIMIT` from src-tauri/src/consts.rs. -/
def MAX_API_PAGE_LIMIT : Nat := 200
/-- Constant `MAX_CACHE_LIMIT` from src-tauri/src/consts.rs. -/
def MAX_CACHE_LIMIT : Nat := 2000
/-- Constant `PAUSE_FOREVER_SENTINEL` from src-tauri/src/consts.rs. -/
def PAUSE_FOREVER_SENTINEL : Nat := 0
/-- The modulus of the Rust `u64` type, two to the 64th power: `stream_epoch` wraps at
this value and `reconnect_attempts` saturates just below it. -/
def U64_MOD : Nat := 2 ^ 64
/-- Embedding of `normalize_cache_limit` (src-tauri/src/main.rs): `limit.clamp(1, MAX_CACHE_LIMIT)`. -/
def normalize_cache_limit (limit : Nat) : Nat :=
  if limit < 1 then 1 else if limit > MAX_CACHE_LIMIT then MAX_CACHE_LIMIT else limit
/-- Embedding of `desired_cache_limit` (src-tauri/src/main.rs): the settings read may fail
(`none`), in which case the default is used, otherwise the stored limit is normalized. -/
def desired_cache_limit (settings : Option StoredSettings) : Nat :=
  match settings with
  | some s => normalize_cache_limit s.cache_limit
  | none => DEFAULT_CACHE_LIMIT
/-- Model of Rust `i64::cmp(&self, other)` (`x.cmp(&y)`). -/
def int_cmp (x y : Int) : Ordering :=
  if x < y then Ordering.lt else if y < x then Ordering.gt else Ordering.eq
/-- Embedding of `cached_message_cmp` (src-tauri/src/main.rs).  `parse` stands for
`chrono` rfc3339 parsing composed with `timestamp()`, as in the imports above.  The source
wildcard arm `_ => b.id.cmp(&a.id)` (reached when both timestamps parse and are equal,
or when both fail to parse) is expanded into the two explicit cases. -/
def cached_message_cmp (parse : String → Option Int) (a b : CachedMessage) : Ordering :=
  let ta := parse a.date
  let tb := parse b.date
  match tb, ta with
  | some tbv, some tav => if tbv ≠ tav then int_cmp tbv tav else int_cmp b.id a.id
  | some _, none => Ordering.lt
  | none, some _ => Ordering.gt
  | none, none => int_cmp b.id a.id
/-- The `≤` view of `cached_message_cmp`, as used by a stable comparison sort:
`a` may be placed no later than `b` exactly when the comparator does not say `Greater`. -/
def cmp_le (parse : String → Option Int) (a b : CachedMessage) : Bool :=
  match cached_message_cmp parse a b with
  | Ordering.gt => false
  | _ => true
/-- Model of `Vec::sort_by` with comparator-induced `≤` relation `le`.  the Rust `sort_by`
is a stable sort; `List.insertionSort` with the insert-before-strictly-greater rule is
stable in the same sense, so it produces the same list for any total transitive `le`. -/
def sort_by (le : α → α → Bool) (xs : List α) : List α :=
  @List.insertionSort α (fun a b => le a b = true)
    (fun a b => instDecidableEqBool (le a b) true) xs
/-- Helper for `dedup_by_key`: walks the list keeping the last retained element,
dropping any element whose key equals the key of the last retained one. -/
def dedup_by_key_go (key : α → Int) (last : α) : List α → List α
  | [] => []
  | b :: t => if key b = key last then dedup_by_key_go key last t else b :: dedup_by_key_go key b t
/-- Model of `Vec::dedup_by_key`: removes all but the first of consecutive elements
that resolve to the same key. -/
def dedup_by_key (key : α → Int) : List α → List α
  | [] => []
  | a :: t => a :: dedup_by_key_go key a t
/-- The normalization pipeline applied to a fetched message set, shared verbatim by
`fetch_recent_messages` (src-tauri/src/messages.rs lines 89-94) and
`replace_message_cache` (lines 284-290): sort, dedupe by id, sort again, truncate. -/
def normalize_fetched (parse : String → Option Int) (cache_limit : Nat)
    (fresh : List CachedMessage) : List CachedMessage :=
  let s1 := sort_by (cmp_le parse) fresh
  let d := dedup_by_key (fun m => m.id) s1
  let s2 := sort_by (cmp_le parse) d
  if s2.length > cache_limit then s2.take cache_limit else s2
/-- Result of `replace_message_cache`: the new cache contents, whether a persistence
write was scheduled (`persist_current_cache_async`), and whether the
`messages-synced` / `messages-updated` events were emitted. -/
structure ReplaceResult where
  cache : List CachedMessage
  persisted : Bool
  emitted : Bool
deriving Repr, DecidableEq
/-- Embedding of `replace_message_cache` (src-tauri/src/messages.rs lines 278-318).
`cache` is the current contents of the message cache; the `changed` test and the
early return with no mutation, no persistence and no emission follow the source. -/
def replace_message_cache (parse : String → Option Int) (cache_limit : Nat)
    (cache fresh : List CachedMessage) : ReplaceResult :=
  let normalized := normalize_fetched parse cache_limit fresh
  let changed := cache.length != normalized.length
    || (cache.zip normalized).any fun p =>
        p.1.id != p.2.id || p.1.date != p.2.date || p.1.priority != p.2.priority
          || p.1.title != p.2.title || p.1.message != p.2.message
  if changed then { cache := normalized, persisted := true, emitted := true }
  else { cache := cache, persisted := false, emitted := false }
/-- Spec-side notion of "content-identical" used by the change check: same length and,
position by position, equal `id`, `date`, `priority`, `title` and `message` (body).
The `app` and `app_icon` fields are deliberately not compared. -/
def content_identical (a b : List CachedMessage) : Bool :=
  a.length == b.length
    && (a.zip b).all fun p =>
        p.1.id == p.2.id && p.1.date == p.2.date && p.1.priority == p.2.priority
          && p.1.title == p.2.title && p.1.message == p.2.message
/-- Numeric value of a decimal digit character. -/
def digit_val (c : Char) : Nat := c.toNat - 48
/-- Two decimal digits as a number, or `none`. -/
def parse2 (a b : Char) : Option Nat :=
  if a.isDigit && b.isDigit then some (10 * digit_val a + digit_val b) else none
/-- Four decimal digits as a number, or `none`. -/
def parse4 (a b c d : Char) : Option Nat :=
  if a.isDigit && b.isDigit && c.isDigit && d.isDigit then
    some (1000 * digit_val a + 100 * digit_val b + 10 * digit_val c + digit_val d)
  else none
/-- Gregorian leap-year test. -/
def is_leap_year (y : Int) : Bool :=
  (y % 4 == 0 && y % 100 != 0) || y % 400 == 0
/-- Days in a month of a given year. -/
def days_in_month (y : Int) (m : Nat) : Nat :=
  if m = 2 then (if is_leap_year y then 29 else 28)
  else if m = 4 ∨ m = 6 ∨ m = 9 ∨ m = 11 then 30
  else 31
/-- Days since 1970-01-01 of a civil date (the Howard Hinnant algorithm `days_from_civil`).
Only used with four-digit years, where the era computation below is exact for any
integer-division convention. -/
def days_from_civil (y : Int) (m d : Nat) : Int :=
  let yy : Int := if m ≤ 2 then y - 1 else y
  let era : Int := (if 0 ≤ yy then yy else yy - 399) / 400
  let yoe : Int := yy - era * 400
  let mp : Nat := if m > 2 then m - 3 else m + 9
  let doy : Int := (153 * (mp : Int) + 2) / 5 + (d : Int) - 1
  let doe : Int := yoe * 365 + yoe / 4 - yoe / 100 + doy
  era * 146097 + doe - 719468
/-- Consume an optional fractional-seconds part `.d+` and return the remaining characters. -/
def skip_fraction : List Char → Option (List Char)
  | '.' :: cs =>
      let frac := cs.takeWhile Char.isDigit
      if frac.isEmpty then none else some (cs.dropWhile Char.isDigit)
  | cs => some cs
/-- Parse the timezone tail of an RFC-3339 string: `Z`, `z`, or `±HH:MM`.
Returns the offset in seconds east of UTC. -/
def parse_tz_offset : List Char → Option Int
  | ['Z'] => some 0
  | ['z'] => some 0
  | [sgn, o1, o2, ':', o3, o4] =>
      if sgn = '+' ∨ sgn = '-' then
        match parse2 o1 o2, parse2 o3 o4 with
        | some oh, some om =>
            if oh ≤ 23 ∧ om ≤ 59 then
              let secs : Int := (oh : Int) * 3600 + (om : Int) * 60
              some (if sgn = '-' then -secs else secs)
            else none
        | _, _ => none
      else none
  | _ => none
/-- Executable model of
`chrono::DateTime::parse_from_rfc3339(s).map(|v| v.timestamp()).ok()` for timestamps of
the form `YYYY-MM-DDTHH:MM:SS(.fraction)?(Z|±HH:MM)` with fully validated calendar
fields (leap seconds are not modelled).  Used to evaluate the development on concrete
inputs; the theorems themselves quantify over the parse function. -/
def parse_rfc3339 (s : String) : Option Int :=
  match s.toList with
  | y1 :: y2 :: y3 :: y4 :: '-' :: mo1 :: mo2 :: '-' :: d1 :: d2 :: t :: h1 :: h2 :: ':'
      :: mi1 :: mi2 :: ':' :: s1 :: s2 :: rest =>
      if t = 'T' ∨ t = 't' ∨ t = ' ' then
        match parse4 y1 y2 y3 y4, parse2 mo1 mo2, parse2 d1 d2,
            parse2 h1 h2, parse2 mi1 mi2, parse2 s1 s2 with
        | some y, some mo, some d, some h, some mi, some sec =>
            if 1 ≤ mo ∧ mo ≤ 12 ∧ 1 ≤ d ∧ d ≤ days_in_month (y : Int) mo
                ∧ h ≤ 23 ∧ mi ≤ 59 ∧ sec ≤ 59 then
              match skip_fraction rest with
              | some tzpart =>
                  match parse_tz_offset tzpart with
                  | some offset =>
                      some (days_from_civil (y : Int) mo d * 86400
                        + (h : Int) * 3600 + (mi : Int) * 60 + (sec : Int) - offset)
                  | none => none
              | none => none
            else none
        | _, _, _, _, _, _ => none
      else none
  | _ => none
/-- Result of `cache_and_emit_message`: the new cache contents, whether an entry with
the same id already existed, and how many times the Notifier
(`notifications::maybe_notify_message` reaching the notify/emit tail) was invoked. -/
structure CacheEmitResult where
  cache : List CachedMessage
  existed : Bool
  notify_count : Nat
deriving Repr, DecidableEq
/-- Embedding of `is_quiet_hours` (src-tauri/src/notifications.rs).  `hour` stands for
`chrono::Local::now().hour()`. -/
def is_quiet_hours (start stop : Option Nat) (hour : Nat) : Bool :=
  match start, stop with
  | some st, some en =>
      if st = en then true
      else if st < en then decide (hour ≥ st) && decide (hour < en)
      else decide (hour ≥ st) || decide (hour < en)
  | _, _ => false
/-- Embedding of `maybe_notify_message` (src-tauri/src/notifications.rs): returns whether
the Notifier fires (the `notification-message` emit / macOS notification tail is reached).
`settings` is `none` when `read_settings` fails; `now` is `unix_now_secs()`; `hour` is the
local hour used by the quiet-hours check.  The early returns of the source are written as a
guard cascade. -/
def maybe_notify_message (settings : Option StoredSettings) (now hour : Nat)
    (message : CachedMessage) : Bool :=
  match settings with
  | none => false
  | some s =>
      if (match s.pause_until with
          | some u => u == PAUSE_FOREVER_SENTINEL || decide (now < u)
          | none => false) then false
      else if message.priority < s.min_priority then false
      else if is_quiet_hours s.quiet_hours_start s.quiet_hours_end hour then false
      else true
/-- Embedding of `cache_and_emit_message` (src-tauri/src/messages.rs lines 220-276):
remove the first entry with the incoming id (if any), insert the new message at the
head, truncate to the desired cache limit, and invoke the Notifier only when
`allow_notification && !existed`. -/
def cache_and_emit_message (settings : Option StoredSettings) (now hour : Nat)
    (cache : List CachedMessage) (message : CachedMessage)
    (allow_notification : Bool) : CacheEmitResult :=
  let pos := cache.findIdx? fun m => m.id == message.id
  let existed := pos.isSome
  let cache0 := match pos with
    | some p => cache.eraseIdx p
    | none => cache
  let cache1 := message :: cache0
  let cache_limit := desired_cache_limit settings
  let cache2 := if cache1.length > cache_limit then cache1.take cache_limit else cache1
  let fired := if allow_notification && !existed then
      maybe_notify_message settings now hour message
    else false
  { cache := cache2, existed := existed, notify_count := if fired then 1 else 0 }
/-- Embedding of `resolve_app_meta` (src-tauri/src/messages.rs): look the application id
up in the metadata map, falling back to a synthesized `app:<id>` label. -/
def resolve_app_meta (meta : Int → Option ApplicationMeta) (app_id : Int) :
    String × Option String :=
  match meta app_id with
  | some m =>
      (m.name, if m.icon_url.trim.isEmpty then none else some m.icon_url)
  | none => ("app:" ++ toString app_id, none)
/-- Embedding of `convert_wire_message` (src-tauri/src/messages.rs). -/
def convert_wire_message (meta : Int → Option ApplicationMeta)
    (message : GotifyMessageWire) : CachedMessage :=
  let lab := resolve_app_meta meta message.appid
  { id := message.id
    app_id := message.appid
    title := message.title
    message := message.message
    priority := message.priority
    app := lab.1
    app_icon := lab.2
    date := message.date }
/-- Inner `for item in json.messages` loop of `fetch_recent_messages`
(src-tauri/src/messages.rs lines 61-73): update the running page minimum id, push the
converted message, count it, and break out once the accumulator has reached the cache
limit.  Returns the new accumulator, the minimum id among the consumed items, and the
number of items consumed (`page_count`). -/
def consume_page (meta : Int → Option ApplicationMeta) (cache_limit : Nat)
    (fresh : List CachedMessage) (min_id : Option Int) (count : Nat) :
    List GotifyMessageWire → List CachedMessage × Option Int × Nat
  | [] => (fresh, min_id, count)
  | item :: rest =>
      let min_id2 := some (match min_id with
        | some m => min m item.id
        | none => item.id)
      let fresh2 := fresh ++ [convert_wire_message meta item]
      let count2 := count + 1
      if fresh2.length ≥ cache_limit then (fresh2, min_id2, count2)
      else consume_page meta cache_limit fresh2 min_id2 count2 rest
def fetch_loop (meta : Int → Option ApplicationMeta)
    (server : Nat → Option Int → Except String (List GotifyMessageWire))
    (cache_limit : Nat) :
    Nat → List CachedMessage → Option Int → Option (Except String (List CachedMessage))
  | 0, _, _ => none
  | fuel + 1, fresh, since =>
      if fresh.length < cache_limit then
        let remaining := cache_limit - fresh.length
        let limit := min remaining MAX_API_PAGE_LIMIT
        if limit = 0 then some (Except.ok fresh)
        else
          match server limit since with
          | Except.error e => some (Except.error e)
          | Except.ok items =>
              if items.isEmpty then some (Except.ok fresh)
              else
                match consume_page meta cache_limit fresh none 0 items with
                | (fresh2, min_id, page_count) =>
                    match min_id with
                    | none => some (Except.ok fresh2)
                    | some m =>
                        if since = some m then some (Except.ok fresh2)
                        else if page_count < limit then some (Except.ok fresh2)
                        else fetch_loop meta server cache_limit fuel fresh2 (some m)
      else some (Except.ok fresh)
/-- Embedding of `fetch_recent_messages` (src-tauri/src/messages.rs lines 12-98): run the
pagination loop from an empty accumulator and no cursor, then normalize the accumulated
set (lines 89-94) and hand it to `replace_message_cache`.  The fuel `cache_limit + 1` is
an upper bound on the number of loop iterations; `none` would mean non-termination of
the source loop. -/
def fetch_recent_messages (parse : String → Option Int)
    (meta : Int → Option ApplicationMeta)
    (server : Nat → Option Int → Except String (List GotifyMessageWire))
    (cache_limit : Nat) (cache : List CachedMessage) :
    Option (Except String ReplaceResult) :=
  match fetch_loop meta server cache_limit (cache_limit + 1) [] none with
  | none => none
  | some (Except.error e) => some (Except.error e)
  | some (Except.ok fresh) =>
      some (Except.ok (replace_message_cache parse cache_limit cache
        (normalize_fetched parse cache_limit fresh)))
/-- The cache file path: `messages_file` (src-tauri/src/main.rs) is the app config
directory joined with `messages.json`. -/
def messages_file (config_dir : String) : String := config_dir ++ "/messages.json"
/-- The backup path for a corrupt cache file:
the source applies `with_extension` with a `corrupt-<suffix>.json` extension to
`messages_file`, which replaces the `json` extension, yielding
`<dir>/messages.corrupt-<suffix>.json`. -/
def corrupt_backup_path (config_dir suffix : String) : String :=
  config_dir ++ "/messages.corrupt-" ++ suffix ++ ".json"
/-- Embedding of `load_messages_from_disk` (src-tauri/src/messages.rs lines 357-384).
The filesystem is a map from paths to contents; `decode` models
`serde_json::from_str::<Vec<CachedMessage>>`; `suffix` models `unique_time_suffix()`.
A missing file yields an empty cache; a file that fails to decode is renamed to the
backup path (modelled as rename always succeeding) and an empty cache is returned. -/
def load_messages_from_disk (decode : String → Option (List CachedMessage))
    (suffix : String) (config_dir : String) (fs : String → Option String) :
    Except String (List CachedMessage) × (String → Option String) :=
  let path := messages_file config_dir
  match fs path with
  | none => (Except.ok [], fs)
  | some content =>
      match decode content with
      | some msgs => (Except.ok msgs, fs)
      | none =>
          let backup := corrupt_backup_path config_dir suffix
          let fs1 : String → Option String := fun p => if p = path then none else fs p
          let fs2 : String → Option String := fun p => if p = backup then some content else fs1 p
          (Except.ok [], fs2)
/-- The runtime fields of `AppState` touched by the stream lifecycle
(src-tauri/src/stream.rs).  `stop_tx` is `some ()` when a stop handle is installed. -/
structure StreamRuntime where
  stop_tx : Option Unit
  should_run : Bool
  last_error : Option String
  backoff_seconds : Nat
  reconnect_attempts : Nat
  stream_epoch : Nat
deriving Repr, DecidableEq
/-- The end-of-task cleanup of `run_stream_loop` (src-tauri/src/stream.rs lines 211-218):
clear the terminal runtime fields only when the current `stream_epoch` still equals the
epoch this task captured at spawn time. -/
def task_exit_cleanup (task_epoch : Nat) (r : StreamRuntime) : StreamRuntime :=
  if r.stream_epoch = task_epoch then
    { r with stop_tx := none, should_run := false, backoff_seconds := 0 }
  else r
/-- The runtime mutation of `stop_stream_internal` (src-tauri/src/stream.rs lines
135-151): take the stop handle (signalling it), clear `should_run` and the backoff. -/
def stop_stream_runtime (r : StreamRuntime) : StreamRuntime :=
  { r with stop_tx := none, should_run := false, backoff_seconds := 0 }
/-- The runtime mutation of `start_stream_internal` (src-tauri/src/stream.rs lines
79-98): a no-op when a stop handle is already installed (a session is active),
otherwise install a fresh stop handle, bump the (wrapping `u64`) `stream_epoch` and
reset the terminal fields.  Returns the epoch captured by the freshly spawned task,
or `none` when no task was spawned. -/
def start_stream_runtime (r : StreamRuntime) : StreamRuntime × Option Nat :=
  if r.stop_tx.isSome then (r, none)
  else
    let e := (r.stream_epoch + 1) % U64_MOD
    ({ r with
        stop_tx := some ()
        stream_epoch := e
        should_run := true
        last_error := none
        backoff_seconds := 0
        reconnect_attempts := 0 }, some e)
/-- The runtime effect of `restart_stream` (src-tauri/src/stream.rs lines 64-67):
stop the old session, then start a new one. -/
def restart_stream_runtime (r : StreamRuntime) : StreamRuntime × Option Nat :=
  start_stream_runtime (stop_stream_runtime r)
/-- Model of `u64::saturating_add`. -/
def u64_saturating_add (a b : Nat) : Nat := min (a + b) (U64_MOD - 1)
/-- One sleep of the backoff path of `run_stream_loop` (src-tauri/src/stream.rs lines
179-207): the raw backoff seconds passed to `Duration::from_secs`, the jitter
milliseconds added to it, and the diagnostics (`backoff_seconds`,
`reconnect_attempts`) stored in the runtime just before the sleep. -/
structure SleepEvent where
  raw_secs : Nat
  jitter_ms : Nat
  diag_backoff_seconds : Nat
  diag_reconnect_attempts : Nat
deriving Repr, DecidableEq
/-- The sequence of backoff sleeps performed by `run_stream_loop` over `n` consecutive
failing session attempts (no stop request observed).  `millis k` models
`SystemTime::now().duration_since(UNIX_EPOCH).subsec_millis()` at the `k`-th failure;
the source computes the jitter as that value modulo 500.  State: `k` indexes failures,
`backoff` is the local `backoff_secs` (initially 1), `attempts` the runtime
field `reconnect_attempts` (reset to 0 by `start_stream_internal`).  After each sleep the
backoff doubles, capped at 30. -/
def run_stream_loop_failures (millis : Nat → Nat) :
    Nat → Nat → Nat → Nat → List SleepEvent
  | 0, _, _, _ => []
  | n + 1, k, backoff, attempts =>
      let attempts2 := u64_saturating_add attempts 1
      let jitter := millis k % 500
      { raw_secs := backoff, jitter_ms := jitter, diag_backoff_seconds := backoff,
        diag_reconnect_attempts := attempts2 }
        :: run_stream_loop_failures millis n (k + 1) (min (backoff * 2) 30) attempts2
/-- The sleep trace of a whole stream task that fails `n` times in a row:
`backoff_secs` starts at 1 and `reconnect_attempts` at 0
(src-tauri/src/stream.rs lines 96-97 and 160). -/
def stream_task_sleep_trace (millis : Nat → Nat) (n : Nat) : List SleepEvent :=
  run_stream_loop_failures millis n 0 1 0
/-- Spec-side characterization of "the message passes the priority/pause filters"
(and the settings are readable, and the quiet-hours window is not active): the
conditions under which `maybe_notify_message` reaches the Notifier. -/
def notify_filters_pass (settings : Option StoredSettings) (now hour : Nat)
    (m : CachedMessage) : Prop :=
  match settings with
  | none => False
  | some s =>
      (match s.pause_until with
        | none => True
        | some u => u ≠ PAUSE_FOREVER_SENTINEL ∧ u ≤ now) ∧
      s.min_priority ≤ m.priority ∧
      is_quiet_hours s.quiet_hours_start s.quiet_hours_end hour = false
/-- The sort key `cached_message_cmp` actually inspects: the parsed timestamp and the id. -/
def message_sort_key (parse : String → Option Int) (m : CachedMessage) : Option Int × Int :=
  (parse m.date, m.id)
/-- The global ordering rule as the code implements it, phrased on sort keys, amended
from the wording of the spec in exactly one point: an entry whose timestamp fails to parse
is ordered BEFORE every entry with a parsable timestamp (the spec claims after).
`x` may precede `y` iff: both parse and `x` has the strictly newer timestamp; or both
parse with equal timestamps and the id of `x` is at least the id of `y` (descending ids);
or `x` is unparsable and `y` parsable; or both are unparsable and the ids descend. -/
def spec_key_order_amended : Option Int × Int → Option Int × Int → Bool
  | (some ta, ia), (some tb, ib) => decide (tb < ta) || (decide (ta = tb) && decide (ib ≤ ia))
  | (some _, _), (none, _) => false
  | (none, _), (some _, _) => true
  | (none, ia), (none, ib) => decide (ib ≤ ia)
/-- The amended global ordering rule on messages. -/
def spec_ordered_amended (parse : String → Option Int) (a b : CachedMessage) : Bool :=
  spec_key_order_amended (message_sort_key parse a) (message_sort_key parse b)
/-- The global ordering rule exactly as the spec claims it, on sort keys: entries with
unparsable timestamps sort AFTER those with valid ones. -/
def spec_key_order_claimed : Option Int × Int → Option Int × Int → Bool
  | (some ta, ia), (some tb, ib) => decide (tb < ta) || (decide (ta = tb) && decide (ib ≤ ia))
  | (some _, _), (none, _) => true
  | (none, _), (some _, _) => false
  | (none, ia), (none, ib) => decide (ib ≤ ia)
/-- The claimed global ordering rule of the spec, on messages. -/
def spec_ordered_claimed (parse : String → Option Int) (a b : CachedMessage) : Bool :=
  spec_key_order_claimed (message_sort_key parse a) (message_sort_key parse b)
/-- A concrete pair of upsert inputs used to exercise the invariant theorem. -/
def sample_upsert_inputs : List (CachedMessage × Bool) :=
  [(⟨1, 0, "a", "b", 5, "", none, "2024-05-01T10:00:00Z"⟩, true),
    (⟨1, 0, "c", "d", 5, "", none, "2024-05-01T11:00:00Z"⟩, false)]
/-- A message with a parsable RFC-3339 timestamp. -/
def msg_valid_ts : CachedMessage :=
  ⟨1, 0, "a", "b", 0, "", none, "2024-05-01T10:00:00Z"⟩
/-- A message whose timestamp does not parse. -/
def msg_bad_ts : CachedMessage :=
  ⟨2, 0, "c", "d", 0, "", none, "not-a-date"⟩
/-- The valid-timestamp sample message with a different application label and icon. -/
def msg_valid_ts_other_app : CachedMessage :=
  ⟨1, 0, "a", "b", 0, "other app", some "icon", "2024-05-01T10:00:00Z"⟩
/-- A one-file filesystem holding an undecodable cache file. -/
def sample_corrupt_fs : String → Option String :=
  fun p => if p = "d/messages.json" then some "garbage" else none
/-- The `while fresh.len() < cache_limit` pagination loop of `fetch_recent_messages`
(src-tauri/src/messages.rs lines 21-87).  `server limit since` is the (possibly
adversarial) response of a GET on the message endpoint with that page limit and cursor; a transport or
decode failure is an `Except.error`.  `fuel` bounds the recursion; the termination
theorem shows that `cache_limit + 1` fuel always suffices, so the loop in the source
terminates. -/
theorem one_le_desired_cache_limit (settings : Option StoredSettings) :
    1 ≤ desired_cache_limit settings := by
  rcases settings with _ | s
  · simp [desired_cache_limit, DEFAULT_CACHE_LIMIT]
  · simp only [desired_cache_limit, normalize_cache_limit, MAX_CACHE_LIMIT]
    split_ifs <;> omega
theorem desired_cache_limit_le (settings : Option StoredSettings) :
    desired_cache_limit settings ≤ MAX_CACHE_LIMIT := by
  rcases settings with _ | s
  · simp [desired_cache_limit, DEFAULT_CACHE_LIMIT, MAX_CACHE_LIMIT]
  · simp only [desired_cache_limit, normalize_cache_limit, MAX_CACHE_LIMIT]
    split_ifs <;> omega
theorem eraseIdx_of_findIdx?_some (p : CachedMessage → Bool) :
    ∀ (l : List CachedMessage) (i : Nat), l.findIdx? p = some i → l.eraseIdx i = l.eraseP p
  | [], i, h => by simp at h
  | a :: t, i, h => by
      by_cases ha : p a = true
      · have hi : i = 0 := by
          simp [List.findIdx?_cons, ha] at h
          omega
        subst hi
        simp [List.eraseP_cons, ha]
      · have h2 : (t.findIdx? p).map (fun k => k + 1) = some i := by
          rw [← List.findIdx?_succ]
          simpa [List.findIdx?_cons, ha] using h
        cases ht : t.findIdx? p with
        | none => rw [ht] at h2; simp at h2
        | some j =>
            rw [ht] at h2
            simp only [Option.map_some', Option.some.injEq] at h2
            subst h2
            simp only [List.eraseIdx_cons_succ, List.eraseP_cons, ha, cond_false]
            rw [eraseIdx_of_findIdx?_some p t j ht]
theorem eraseP_of_findIdx?_none (p : CachedMessage → Bool) (l : List CachedMessage)
    (h : l.findIdx? p = none) : l.eraseP p = l := by
  apply List.eraseP_of_forall_not
  intro x hx
  simpa using List.findIdx?_eq_none_iff.mp h x hx
theorem mem_eraseP_id_ne (mid : Int) :
    ∀ l : List CachedMessage, ((l.map fun m => m.id).Nodup) →
      ∀ x ∈ l.eraseP (fun m => m.id == mid), x.id ≠ mid
  | [], _, x, hx => by simp at hx
  | a :: t, hnd, x, hx => by
      have hnd2 : ((t.map fun m => m.id).Nodup) := by
        simpa using hnd.of_cons
      by_cases ha : a.id = mid
      · have hx2 : x ∈ t := by
          simpa [List.eraseP_cons, ha] using hx
        have hnotmem : mid ∉ (t.map fun m => m.id) := by
          have h1 : a.id ∉ (t.map fun m => m.id) := by
            have h0 := hnd
            simp only [List.map_cons, List.nodup_cons] at h0
            exact h0.1
          rwa [ha] at h1
        intro hxeq
        exact hnotmem (List.mem_map.mpr ⟨x, hx2, hxeq⟩)
      · have hx2 : x = a ∨ x ∈ t.eraseP (fun m => m.id == mid) := by
          have hmem : x ∈ a :: t.eraseP (fun m => m.id == mid) := by
            simpa [List.eraseP_cons, ha] using hx
          simpa using hmem
        rcases hx2 with rfl | hx3
        · exact ha
        · exact mem_eraseP_id_ne mid t hnd2 x hx3
/-- Unfolding of the cache contents computed by `cache_and_emit_message`:
the first entry with the incoming id is erased, the message is prepended,
and the list is truncated when it exceeds the limit. -/
theorem cache_and_emit_message_cache_eq (settings : Option StoredSettings)
    (now hour : Nat) (cache : List CachedMessage) (m : CachedMessage) (allow : Bool) :
    (cache_and_emit_message settings now hour cache m allow).cache =
      (if (m :: cache.eraseP (fun x => x.id == m.id)).length > desired_cache_limit settings
        then (m :: cache.eraseP (fun x => x.id == m.id)).take (desired_cache_limit settings)
        else m :: cache.eraseP (fun x => x.id == m.id)) := by
  simp only [cache_and_emit_message]
  cases hfi : cache.findIdx? (fun x => x.id == m.id) with
  | none =>
      have h2 : List.eraseP (fun x => x.id == m.id) cache = cache :=
        eraseP_of_findIdx?_none _ cache hfi
      simp only [h2]
  | some p =>
      have h2 := eraseIdx_of_findIdx?_some _ cache p hfi
      simp only [h2]
theorem cache_and_emit_message_length_le_limit (settings : Option StoredSettings)
    (now hour : Nat) (cache : List CachedMessage) (m : CachedMessage) (allow : Bool) :
    (cache_and_emit_message settings now hour cache m allow).cache.length ≤
      desired_cache_limit settings := by
  rw [cache_and_emit_message_cache_eq]
  split_ifs with h
  · simp [List.length_take]
  · simp only [List.length_cons, gt_iff_lt, not_lt] at h ⊢
    omega
theorem cache_and_emit_message_nodup (settings : Option StoredSettings)
    (now hour : Nat) (cache : List CachedMessage) (m : CachedMessage) (allow : Bool)
    (hnd : ((cache.map fun x => x.id).Nodup)) :
    (((cache_and_emit_message settings now hour cache m allow).cache.map
      fun x => x.id).Nodup) := by
  rw [cache_and_emit_message_cache_eq]
  have hcore : (((m :: cache.eraseP fun x => x.id == m.id).map fun x => x.id).Nodup) := by
    simp only [List.map_cons, List.nodup_cons]
    constructor
    · intro hmem
      rcases List.mem_map.mp hmem with ⟨y, hy, hyid⟩
      exact mem_eraseP_id_ne m.id cache hnd y hy hyid
    · exact hnd.sublist ((List.eraseP_sublist cache).map fun x => x.id)
  split_ifs with h
  · rw [List.map_take]
    exact hcore.sublist (List.take_sublist _ _)
  · exact hcore
theorem maybe_notify_message_eq_true_iff (settings : Option StoredSettings)
    (now hour : Nat) (m : CachedMessage) :
    maybe_notify_message settings now hour m = true ↔
      notify_filters_pass settings now hour m := by
  rcases settings with _ | s
  · simp [maybe_notify_message, notify_filters_pass]
  · simp only [maybe_notify_message, notify_filters_pass]
    rcases hp : s.pause_until with _ | u
    · split_ifs with h1 h2 h3 <;> simp_all
    · simp only [PAUSE_FOREVER_SENTINEL]
      split_ifs with h1 h2 h3 <;> simp_all
      all_goals omega
/-- C10: immediately after `cache_and_emit_message`, the cache is non-empty and its
head is exactly the upserted message: the message is inserted at index 0 and the
effective cache limit is always at least 1, so the truncation never removes it. -/
theorem upsert_head_is_message (settings : Option StoredSettings) (now hour : Nat)
    (cache : List CachedMessage) (m : CachedMessage) (allow : Bool) :
    (cache_and_emit_message settings now hour cache m allow).cache.head? = some m ∧
    (cache_and_emit_message settings now hour cache m allow).cache ≠ [] ∧
    1 ≤ desired_cache_limit settings := by
  have hone := one_le_desired_cache_limit settings
  have hhead : (cache_and_emit_message settings now hour cache m allow).cache.head? = some m := by
    rw [cache_and_emit_message_cache_eq]
    split_ifs with h
    · rcases hk : desired_cache_limit settings with _ | k
      · omega
      · simp [List.take_cons]
    · simp
  refine ⟨hhead, ?_, hone⟩
  intro hnil
  rw [hnil] at hhead
  simp at hhead
/-- C8: `cache_and_emit_message` invokes the Notifier at most once; it invokes it
exactly once iff notifications are allowed, no entry with the incoming id existed in
the cache immediately before the call, and the message passes the settings/pause/
priority/quiet-hours filters; and when an entry with the same id already existed the
call never notifies. -/
theorem upsert_notifies_once_only_new (settings : Option StoredSettings) (now hour : Nat)
    (cache : List CachedMessage) (m : CachedMessage) (allow : Bool) :
    (cache_and_emit_message settings now hour cache m allow).notify_count ≤ 1 ∧
    ((cache_and_emit_message settings now hour cache m allow).notify_count = 1 ↔
      (allow = true ∧ (∀ x ∈ cache, x.id ≠ m.id) ∧ notify_filters_pass settings now hour m)) ∧
    ((cache_and_emit_message settings now hour cache m allow).existed = true →
      (cache_and_emit_message settings now hour cache m allow).notify_count = 0) := by
  cases hfi : cache.findIdx? (fun x => x.id == m.id) with
  | none =>
      have hall : ∀ x ∈ cache, x.id ≠ m.id := by
        intro x hx
        have := List.findIdx?_eq_none_iff.mp hfi x hx
        simpa using this
      simp only [cache_and_emit_message, hfi, Option.isSome_none]
      by_cases hallow : allow = true
      · subst hallow
        by_cases hnot : maybe_notify_message settings now hour m = true
        · have hpass := (maybe_notify_message_eq_true_iff settings now hour m).mp hnot
          simp [hnot, hpass]
          exact hall
        · have hnpass : ¬ notify_filters_pass settings now hour m :=
            fun hp => hnot ((maybe_notify_message_eq_true_iff settings now hour m).mpr hp)
          have hnot2 : maybe_notify_message settings now hour m = false := by
            simpa using hnot
          simp [hnot2, hnpass]
      · have : allow = false := by simpa using hallow
        subst this
        simp [hall]
  | some i =>
      have hsome : ¬ (∀ x ∈ cache, x.id ≠ m.id) := by
        intro hall
        have : cache.findIdx? (fun x => x.id == m.id) = none := by
          apply List.findIdx?_eq_none_iff.mpr
          intro x hx
          simpa using hall x hx
        rw [this] at hfi
        exact Option.noConfusion hfi
      simp [cache_and_emit_message, hfi, hsome]
/-- C8 witness: a concrete new message with permissive settings notifies exactly once. -/
theorem upsert_notifies_once_only_new_witness :
    (cache_and_emit_message
        (some ⟨"u", none, 0, 100, false, false, none, none, none, none⟩) 10 12 []
        ⟨7, 0, "t", "b", 5, "", none, "2024-05-01T10:00:00Z"⟩ true).notify_count = 1 :=
  (upsert_notifies_once_only_new
      (some ⟨"u", none, 0, 100, false, false, none, none, none, none⟩) 10 12 []
      ⟨7, 0, "t", "b", 5, "", none, "2024-05-01T10:00:00Z"⟩ true).2.1.mpr
    ⟨rfl, by simp, by simp [notify_filters_pass, is_quiet_hours]⟩
/-- C3: a stream-loop task that captured epoch `E` at spawn time clears the terminal
runtime fields (`stop_tx`, `should_run`, `backoff_seconds`) on exit only if the current
`stream_epoch` still equals `E`; after a restart has bumped the epoch past `E`, the old
exit cleanup of that task leaves the runtime state installed by the newer task untouched. -/
theorem stale_task_cleanup_guarded (r : StreamRuntime) (E : Nat)
    (hE : r.stream_epoch = E) (hlt : r.stream_epoch < U64_MOD) :
    (restart_stream_runtime r).1.stream_epoch ≠ E ∧
    task_exit_cleanup E (restart_stream_runtime r).1 = (restart_stream_runtime r).1 ∧
    (restart_stream_runtime r).2 = some (restart_stream_runtime r).1.stream_epoch ∧
    (restart_stream_runtime r).1.stop_tx = some () ∧
    (restart_stream_runtime r).1.should_run = true ∧
    (∀ r2 : StreamRuntime, r2.stream_epoch ≠ E → task_exit_cleanup E r2 = r2) := by
  have hbump : (r.stream_epoch + 1) % U64_MOD ≠ r.stream_epoch := by
    rcases Nat.lt_or_ge (r.stream_epoch + 1) U64_MOD with hc | hc
    · rw [Nat.mod_eq_of_lt hc]
      omega
    · have hmod : U64_MOD ≠ 0 := by
        simp [U64_MOD]
      have heq : r.stream_epoch + 1 = U64_MOD := by omega
      rw [heq, Nat.mod_self]
      have hU : 2 ≤ U64_MOD := by
        simp only [U64_MOD]
        norm_num
      omega
  have hguard : ∀ r2 : StreamRuntime, r2.stream_epoch ≠ E → task_exit_cleanup E r2 = r2 := by
    intro r2 hne
    simp [task_exit_cleanup, hne]
  have hstart : (restart_stream_runtime r).1.stream_epoch = (r.stream_epoch + 1) % U64_MOD := by
    simp [restart_stream_runtime, start_stream_runtime, stop_stream_runtime]
  have hne : (restart_stream_runtime r).1.stream_epoch ≠ E := by
    rw [hstart, ← hE]
    exact hbump
  refine ⟨hne, hguard _ hne, ?_, ?_, ?_, hguard⟩
  · simp [restart_stream_runtime, start_stream_runtime, stop_stream_runtime]
  · simp [restart_stream_runtime, start_stream_runtime, stop_stream_runtime]
  · simp [restart_stream_runtime, start_stream_runtime, stop_stream_runtime]
/-- C3 witness: the spec scenario with epoch 5 bumped to 6 by a restart. -/
theorem stale_task_cleanup_guarded_witness :
    task_exit_cleanup 5
        (restart_stream_runtime ⟨some (), true, none, 4, 2, 5⟩).1 =
      (restart_stream_runtime ⟨some (), true, none, 4, 2, 5⟩).1 :=
  (stale_task_cleanup_guarded ⟨some (), true, none, 4, 2, 5⟩ 5 rfl (by decide)).2.1
theorem run_stream_loop_failures_length (millis : Nat → Nat) :
    ∀ (n k b a : Nat), (run_stream_loop_failures millis n k b a).length = n
  | 0, _, _, _ => rfl
  | n + 1, k, b, a => by
      simp [run_stream_loop_failures, run_stream_loop_failures_length millis n]
theorem min_double_pow (b j : Nat) :
    min (min (b * 2) 30 * 2 ^ j) 30 = min (b * (2 * 2 ^ j)) 30 := by
  have h2j : 1 ≤ 2 ^ j := Nat.one_le_two_pow
  rcases le_or_lt (b * 2) 30 with hb | hb
  · rw [Nat.min_eq_left hb, Nat.mul_assoc]
  · rw [Nat.min_eq_right (Nat.le_of_lt hb)]
    have h1 : 30 ≤ 30 * 2 ^ j := Nat.le_mul_of_pos_right 30 (by omega)
    have h2 : 30 < b * (2 * 2 ^ j) := by
      calc 30 < b * 2 := hb
        _ ≤ b * 2 * 2 ^ j := Nat.le_mul_of_pos_right _ (by omega)
        _ = b * (2 * 2 ^ j) := by ring
    rw [Nat.min_eq_right h1, Nat.min_eq_right (Nat.le_of_lt h2)]
theorem sat_add_shift (a j X : Nat) :
    min (min (a + 1) X + (j + 1)) X = min (a + (j + 1) + 1) X := by
  rcases le_or_lt (a + 1) X with h | h
  · rw [Nat.min_eq_left h]
    omega
  · rw [Nat.min_eq_right (by omega : X ≤ a + 1)]
    omega
theorem run_stream_loop_failures_getElem (millis : Nat → Nat) (n : Nat) :
    ∀ (j k b a : Nat), j < n → b ≤ 30 →
      (run_stream_loop_failures millis n k b a)[j]? =
        some ⟨min (b * 2 ^ j) 30, millis (k + j) % 500,
          min (b * 2 ^ j) 30, min (a + j + 1) (U64_MOD - 1)⟩ := by
  induction n with
  | zero => intro j k b a hj _; exact absurd hj (Nat.not_lt_zero j)
  | succ n ih =>
      intro j k b a hj hb
      cases j with
      | zero =>
          simp [run_stream_loop_failures, u64_saturating_add, Nat.min_eq_left hb]
      | succ j =>
          have hrec := ih j (k + 1) (min (b * 2) 30)
            (u64_saturating_add a 1) (by omega) (by omega)
          simp only [run_stream_loop_failures, List.getElem?_cons_succ]
          rw [hrec]
          have hkj : k + 1 + j = k + (j + 1) := by omega
          have h1 : min (min (b * 2) 30 * 2 ^ j) 30 = min (b * 2 ^ (j + 1)) 30 := by
            rw [min_double_pow]
            congr 1
            rw [Nat.pow_succ]
            ring
          have h2 : min (u64_saturating_add a 1 + j + 1) (U64_MOD - 1)
              = min (a + (j + 1) + 1) (U64_MOD - 1) := by
            simp only [u64_saturating_add]
            omega
          rw [hkj, h1, h2]
/-- C5: over any run of consecutive failing session attempts, the `k`-th backoff sleep
(0-based index `k`, which the spec counts as attempt `k+1`) has raw duration
`min(2^k, 30)` seconds — 1, 2, 4, 8, 16, 30, 30, … — plus a jitter of
`millis mod 500 < 500` milliseconds, and the diagnostics stored in the runtime just
before the sleep hold exactly that backoff value and the incremented (saturating)
reconnect-attempt counter `k+1`. -/
theorem backoff_schedule (millis : Nat → Nat) (n k : Nat) (hk : k < n) :
    (stream_task_sleep_trace millis n)[k]? =
      some ⟨min (2 ^ k) 30, millis k % 500, min (2 ^ k) 30, min (k + 1) (U64_MOD - 1)⟩ ∧
    millis k % 500 < 500 := by
  constructor
  · have := run_stream_loop_failures_getElem millis n k 0 1 0 hk (by omega)
    simpa using this
  · exact Nat.mod_lt _ (by omega)
/-- C5 witness: with six consecutive failures the sixth sleep is the capped 30 seconds,
with jitter 123 ms and reconnect attempt counter 6. -/
theorem backoff_schedule_witness :
    (stream_task_sleep_trace (fun _ => 123) 6)[5]? =
      some ⟨min (2 ^ 5) 30, (fun _ : Nat => 123) 5 % 500,
        min (2 ^ 5) 30, min (5 + 1) (U64_MOD - 1)⟩ :=
  (backoff_schedule (fun _ => 123) 6 5 (by omega)).1
theorem ordering_le_int_cmp (x y : Int) :
    (match int_cmp x y with | Ordering.gt => false | _ => true) = decide (x ≤ y) := by
  rcases lt_trichotomy x y with h | h | h
  · rw [int_cmp, if_pos h]
    have hxy : x ≤ y := le_of_lt h
    simp [hxy]
  · subst h
    rw [int_cmp, if_neg (lt_irrefl x), if_neg (lt_irrefl x)]
    simp
  · rw [int_cmp, if_neg (by omega), if_pos h]
    have hxy : ¬ (x ≤ y) := by omega
    simp [hxy]
theorem cmp_le_eq_spec_amended (parse : String → Option Int) (a b : CachedMessage) :
    cmp_le parse a b = spec_ordered_amended parse a b := by
  cases hA : parse a.date with
  | none =>
      cases hB : parse b.date with
      | none =>
          simp only [cmp_le, cached_message_cmp, hA, hB, spec_ordered_amended,
            spec_key_order_amended, message_sort_key]
          exact ordering_le_int_cmp b.id a.id
      | some tb =>
          simp [cmp_le, cached_message_cmp, hA, hB, spec_ordered_amended,
            spec_key_order_amended, message_sort_key]
  | some ta =>
      cases hB : parse b.date with
      | none =>
          simp [cmp_le, cached_message_cmp, hA, hB, spec_ordered_amended,
            spec_key_order_amended, message_sort_key]
      | some tb =>
          simp only [cmp_le, cached_message_cmp, hA, hB, spec_ordered_amended,
            spec_key_order_amended, message_sort_key]
          by_cases h : tb = ta
          · subst h
            rw [if_neg (by simp)]
            rw [ordering_le_int_cmp b.id a.id]
            simp
          · rw [if_pos h]
            rw [ordering_le_int_cmp tb ta]
            have hne : decide (ta = tb) = false := by
              simp only [decide_eq_false_iff_not]
              omega
            rw [hne]
            simp only [Bool.false_and, Bool.or_false]
            rw [decide_eq_decide]
            omega
theorem spec_key_order_amended_total (x y : Option Int × Int) :
    spec_key_order_amended x y = true ∨ spec_key_order_amended y x = true := by
  obtain ⟨tx, ix⟩ := x
  obtain ⟨ty, iy⟩ := y
  cases tx <;> cases ty <;> simp [spec_key_order_amended] <;> omega
theorem spec_key_order_amended_trans (x y z : Option Int × Int)
    (h1 : spec_key_order_amended x y = true) (h2 : spec_key_order_amended y z = true) :
    spec_key_order_amended x z = true := by
  obtain ⟨tx, ix⟩ := x
  obtain ⟨ty, iy⟩ := y
  obtain ⟨tz, iz⟩ := z
  cases tx <;> cases ty <;> cases tz <;>
    simp_all [spec_key_order_amended] <;> omega
theorem sort_by_pairwise (le : α → α → Bool)
    (htrans : ∀ a b c, le a b = true → le b c = true → le a c = true)
    (htotal : ∀ a b, le a b = true ∨ le b a = true) (xs : List α) :
    List.Pairwise (fun a b => le a b = true) (sort_by le xs) := by
  haveI : IsTotal α (fun a b => le a b = true) := ⟨htotal⟩
  haveI : IsTrans α (fun a b => le a b = true) := ⟨htrans⟩
  exact List.sorted_insertionSort _ xs
theorem normalize_fetched_pairwise (parse : String → Option Int) (cache_limit : Nat)
    (fresh : List CachedMessage) :
    List.Pairwise (fun a b => spec_ordered_amended parse a b = true)
      (normalize_fetched parse cache_limit fresh) := by
  have hs : List.Pairwise (fun a b => cmp_le parse a b = true)
      (sort_by (cmp_le parse) (dedup_by_key (fun m => m.id) (sort_by (cmp_le parse) fresh))) := by
    apply sort_by_pairwise
    · intro a b c hab hbc
      rw [cmp_le_eq_spec_amended] at hab hbc ⊢
      exact spec_key_order_amended_trans _ _ _ hab hbc
    · intro a b
      rw [cmp_le_eq_spec_amended, cmp_le_eq_spec_amended]
      exact spec_key_order_amended_total _ _
  have hs2 : List.Pairwise (fun a b => spec_ordered_amended parse a b = true)
      (sort_by (cmp_le parse) (dedup_by_key (fun m => m.id) (sort_by (cmp_le parse) fresh))) := by
    refine hs.imp ?_
    intro a b hab
    rwa [cmp_le_eq_spec_amended] at hab
  simp only [normalize_fetched]
  split_ifs with h
  · exact hs2.sublist (List.take_sublist _ _)
  · exact hs2
theorem content_identical_refl : ∀ l : List CachedMessage, content_identical l l = true
  | [] => rfl
  | a :: t => by
      have ih := content_identical_refl t
      simp only [content_identical, Bool.and_eq_true] at ih
      simp [content_identical, ih.2]
theorem changed_false_iff_content (x y : List CachedMessage) :
    ((x.length != y.length
      || (x.zip y).any fun p =>
          p.1.id != p.2.id || p.1.date != p.2.date || p.1.priority != p.2.priority
            || p.1.title != p.2.title || p.1.message != p.2.message) = false) ↔
      content_identical x y = true := by
  simp only [content_identical, Bool.or_eq_false_iff, bne_eq_false_iff_eq,
    List.any_eq_false, Bool.and_eq_true, beq_iff_eq, List.all_eq_true,
    Bool.or_eq_true, bne_iff_ne, ne_eq]
  constructor
  · rintro ⟨hlen, hall⟩
    exact ⟨hlen, fun p hp => by have h := hall p hp; tauto⟩
  · rintro ⟨hlen, hall⟩
    exact ⟨hlen, fun p hp => by have h := hall p hp; tauto⟩
/-- Closed form of `replace_message_cache`: a no-op result when the fetched set,
post-normalization, is content-identical to the current cache, and a full replace
with persistence and events otherwise. -/
theorem replace_message_cache_eq (parse : String → Option Int) (cache_limit : Nat)
    (cache fresh : List CachedMessage) :
    replace_message_cache parse cache_limit cache fresh =
      if content_identical cache (normalize_fetched parse cache_limit fresh) = true
      then ⟨cache, false, false⟩
      else ⟨normalize_fetched parse cache_limit fresh, true, true⟩ := by
  simp only [replace_message_cache]
  cases hch : (cache.length != (normalize_fetched parse cache_limit fresh).length
      || (cache.zip (normalize_fetched parse cache_limit fresh)).any fun p =>
          p.1.id != p.2.id || p.1.date != p.2.date || p.1.priority != p.2.priority
            || p.1.title != p.2.title || p.1.message != p.2.message) with
  | false =>
      have hc := (changed_false_iff_content _ _).mp hch
      simp [hc]
  | true =>
      have hc : ¬ content_identical cache (normalize_fetched parse cache_limit fresh) = true := by
        intro hcon
        have := (changed_false_iff_content cache
          (normalize_fetched parse cache_limit fresh)).mpr hcon
        rw [this] at hch
        exact Bool.noConfusion hch
      simp [hc]
theorem map_key_eq_of_content (parse : String → Option Int) :
    ∀ x y : List CachedMessage, content_identical x y = true →
      x.map (message_sort_key parse) = y.map (message_sort_key parse)
  | [], [], _ => rfl
  | [], b :: ys, h => by simp [content_identical] at h
  | a :: xs, [], h => by simp [content_identical] at h
  | a :: xs, b :: ys, h => by
      simp only [content_identical, List.length_cons, List.zip_cons_cons, List.all_cons,
        Bool.and_eq_true, beq_iff_eq, Nat.add_right_cancel_iff] at h
      obtain ⟨hlen, hhead, hall⟩ := h
      have hid : a.id = b.id := hhead.1.1.1.1
      have hdate : a.date = b.date := hhead.1.1.1.2
      have hrec : content_identical xs ys = true := by
        simp only [content_identical, Bool.and_eq_true, beq_iff_eq]
        exact ⟨hlen, hall⟩
      simp only [List.map_cons, message_sort_key, hid, hdate,
        map_key_eq_of_content parse xs ys hrec]
theorem pairwise_amended_of_content (parse : String → Option Int)
    (x y : List CachedMessage) (h : content_identical x y = true)
    (hp : List.Pairwise (fun a b => spec_ordered_amended parse a b = true) y) :
    List.Pairwise (fun a b => spec_ordered_amended parse a b = true) x := by
  have hmap := map_key_eq_of_content parse x y h
  have h1 : List.Pairwise (fun u v => spec_key_order_amended u v = true)
      (y.map (message_sort_key parse)) := List.pairwise_map.mpr hp
  rw [← hmap] at h1
  exact List.pairwise_map.mp h1
/-- C2: for every cache state with no duplicate ids and length at most the (normalized)
cache limit, and for every sequence of incoming messages, `cache_and_emit_message`
preserves both invariants: the final cache has no duplicate ids and its length stays at
most `desired_cache_limit settings` (which is `cache_limit` clamped into `[1, 2000]`,
or the default 100 when the settings cannot be read). -/
theorem upsert_preserves_invariants (settings : Option StoredSettings) (now hour : Nat)
    (inputs : List (CachedMessage × Bool)) (init : List CachedMessage)
    (hnd : ((init.map fun x => x.id).Nodup))
    (hlen : init.length ≤ desired_cache_limit settings) :
    (((inputs.foldl
        (fun st inp => (cache_and_emit_message settings now hour st inp.1 inp.2).cache)
        init).map fun x => x.id).Nodup) ∧
    (inputs.foldl
        (fun st inp => (cache_and_emit_message settings now hour st inp.1 inp.2).cache)
        init).length ≤ desired_cache_limit settings := by
  induction inputs generalizing init with
  | nil => exact ⟨hnd, hlen⟩
  | cons inp rest ih =>
      simp only [List.foldl_cons]
      exact ih _ (cache_and_emit_message_nodup settings now hour init inp.1 inp.2 hnd)
        (cache_and_emit_message_length_le_limit settings now hour init inp.1 inp.2)
/-- C2 witness: a concrete run of two upserts from the empty cache. -/
theorem upsert_preserves_invariants_witness :
    (((sample_upsert_inputs.foldl
        (fun st inp => (cache_and_emit_message none 0 0 st inp.1 inp.2).cache)
        []).map fun x => x.id).Nodup) ∧
    (sample_upsert_inputs.foldl
        (fun st inp => (cache_and_emit_message none 0 0 st inp.1 inp.2).cache)
        []).length ≤ desired_cache_limit none :=
  upsert_preserves_invariants none 0 0 sample_upsert_inputs [] (by simp)
    (by simp [desired_cache_limit])
/-- C1 (amended): the cache produced by reconciliation is always sorted by the global
ordering rule as the code implements it — descending parsed timestamp, ties broken by
descending id, and every entry whose timestamp fails to parse ordered BEFORE every
entry with a parsable timestamp (the claimed "after" is refuted by the
counterexample), unparsable entries among themselves by descending id.  This covers
both branches of `replace_message_cache`: the replaced cache is the normalized sorted
set, and the untouched cache agrees with it on every field the order inspects. -/
theorem reconcile_cache_sorted_amended (parse : String → Option Int) (cache_limit : Nat)
    (cache fresh : List CachedMessage) :
    List.Pairwise (fun a b => spec_ordered_amended parse a b = true)
      (replace_message_cache parse cache_limit cache fresh).cache := by
  rw [replace_message_cache_eq]
  have hnorm := normalize_fetched_pairwise parse cache_limit fresh
  split_ifs with h
  · exact pairwise_amended_of_content parse cache _ h hnorm
  · exact hnorm
/-- C1 counterexample: reconciling the two-message set `[valid, unparsable]` produces
the cache `[unparsable, valid]` — the comparator orders the entry with the unparsable
timestamp BEFORE the entry with the parsable one, so the claimed rule ("entries with
unparsable timestamps sort after those with valid ones") does not hold of the
reconciled cache. -/
theorem reconcile_claimed_order_counterexample :
    (replace_message_cache parse_rfc3339 100 [] [msg_valid_ts, msg_bad_ts]).cache
      = [msg_bad_ts, msg_valid_ts] ∧
    ¬ List.Pairwise (fun a b => spec_ordered_claimed parse_rfc3339 a b = true)
      (replace_message_cache parse_rfc3339 100 [] [msg_valid_ts, msg_bad_ts]).cache := by
  have hcache : (replace_message_cache parse_rfc3339 100 [] [msg_valid_ts, msg_bad_ts]).cache
      = [msg_bad_ts, msg_valid_ts] := by decide
  refine ⟨hcache, ?_⟩
  intro hp
  rw [hcache] at hp
  have hrel := (List.pairwise_cons.mp hp).1 msg_valid_ts (List.mem_cons_self _ _)
  have hfalse : spec_ordered_claimed parse_rfc3339 msg_bad_ts msg_valid_ts = false := by
    decide
  rw [hrel] at hfalse
  exact Bool.noConfusion hfalse
/-- C4: when the fetched set is, after normalization, content-identical to the current
cache (same length; pointwise equal id, date, priority, title, body), reconciliation
performs no cache mutation, schedules no persistence write and emits no event; and a
second reconcile with the same fresh set right after a first one is always
side-effect-free, so reconcile is idempotent. -/
theorem reconcile_idempotent (parse : String → Option Int) (cache_limit : Nat)
    (cache fresh : List CachedMessage) :
    (content_identical cache (normalize_fetched parse cache_limit fresh) = true →
      replace_message_cache parse cache_limit cache fresh = ⟨cache, false, false⟩) ∧
    replace_message_cache parse cache_limit
        (replace_message_cache parse cache_limit cache fresh).cache fresh =
      ⟨(replace_message_cache parse cache_limit cache fresh).cache, false, false⟩ := by
  constructor
  · intro h
    rw [replace_message_cache_eq, if_pos h]
  · rw [replace_message_cache_eq parse cache_limit cache fresh]
    split_ifs with h
    · rw [replace_message_cache_eq, if_pos h]
    · rw [replace_message_cache_eq, if_pos (content_identical_refl _)]
/-- C4 witness: a cache that already equals the normalized fetched set is left
untouched with no persistence and no events. -/
theorem reconcile_idempotent_witness :
    replace_message_cache parse_rfc3339 100 [msg_valid_ts] [msg_valid_ts]
      = ⟨[msg_valid_ts], false, false⟩ :=
  (reconcile_idempotent parse_rfc3339 100 [msg_valid_ts] [msg_valid_ts]).1 (by decide)
theorem content_identical_of_pointwise :
    ∀ x y : List CachedMessage, x.length = y.length →
      (∀ (i : Nat) (h1 : i < x.length) (h2 : i < y.length),
        x[i].id = y[i].id ∧ x[i].date = y[i].date ∧ x[i].priority = y[i].priority ∧
        x[i].title = y[i].title ∧ x[i].message = y[i].message) →
      content_identical x y = true
  | [], [], _, _ => rfl
  | [], _ :: _, h, _ => by simp at h
  | _ :: _, [], h, _ => by simp at h
  | a :: xs, b :: ys, hlen, hpt => by
      have hhead := hpt 0 (by simp) (by simp)
      have hl2 : xs.length = ys.length := by simpa using hlen
      have hrec : content_identical xs ys = true :=
        content_identical_of_pointwise xs ys hl2 (fun i h1 h2 => by
          have h := hpt (i + 1) (by simpa using Nat.succ_lt_succ h1)
            (by simpa using Nat.succ_lt_succ h2)
          simpa using h)
      simp only [content_identical, Bool.and_eq_true] at hrec
      simp only [content_identical, List.length_cons, List.zip_cons_cons, List.all_cons,
        Bool.and_eq_true, beq_iff_eq]
      refine ⟨by omega, ?_, hrec.2⟩
      obtain ⟨h1, h2, h3, h4, h5⟩ := hhead
      simp only [List.getElem_cons_zero] at h1 h2 h3 h4 h5
      exact ⟨⟨⟨⟨h1, h2⟩, h3⟩, h4⟩, h5⟩
/-- C9: the change check of `replace_message_cache` reads only id, date, priority,
title and body — whenever the current cache and the normalized fetched set agree
position by position on those five fields (and in length), the cache is left exactly
as it was, no persistence write is scheduled and no event is emitted, regardless of
any difference in the `app` display label or `app_icon` fields.  Refreshed
application names or icons alone therefore never propagate through reconciliation. -/
theorem reconcile_ignores_app_fields (parse : String → Option Int) (cache_limit : Nat)
    (cache fresh : List CachedMessage)
    (hlen : cache.length = (normalize_fetched parse cache_limit fresh).length)
    (hfields : ∀ (i : Nat) (h1 : i < cache.length)
        (h2 : i < (normalize_fetched parse cache_limit fresh).length),
      cache[i].id = (normalize_fetched parse cache_limit fresh)[i].id ∧
      cache[i].date = (normalize_fetched parse cache_limit fresh)[i].date ∧
      cache[i].priority = (normalize_fetched parse cache_limit fresh)[i].priority ∧
      cache[i].title = (normalize_fetched parse cache_limit fresh)[i].title ∧
      cache[i].message = (normalize_fetched parse cache_limit fresh)[i].message) :
    replace_message_cache parse cache_limit cache fresh = ⟨cache, false, false⟩ := by
  have hc : content_identical cache (normalize_fetched parse cache_limit fresh) = true :=
    content_identical_of_pointwise _ _ hlen hfields
  rw [replace_message_cache_eq, if_pos hc]
/-- C9 witness: a fetched set differing from the cache only in the `app` and
`app_icon` fields leaves the cache byte-for-byte unchanged with no side effects. -/
theorem reconcile_ignores_app_fields_witness :
    replace_message_cache parse_rfc3339 100 [msg_valid_ts] [msg_valid_ts_other_app]
      = ⟨[msg_valid_ts], false, false⟩ := by
  apply reconcile_ignores_app_fields parse_rfc3339 100 [msg_valid_ts] [msg_valid_ts_other_app]
    (by decide)
  intro i h1 h2
  have hi : i = 0 := by
    have : i < 1 := by simpa using h1
    omega
  subst hi
  have hnorm : normalize_fetched parse_rfc3339 100 [msg_valid_ts_other_app]
      = [msg_valid_ts_other_app] := by decide
  simp only [hnorm, List.getElem_cons_zero]
  decide
theorem consume_page_count (meta : Int → Option ApplicationMeta) (cache_limit : Nat) :
    ∀ (items : List GotifyMessageWire) (fresh : List CachedMessage)
      (min_id : Option Int) (count : Nat),
      count ≤ (consume_page meta cache_limit fresh min_id count items).2.2 ∧
      (consume_page meta cache_limit fresh min_id count items).1.length + count
        = fresh.length + (consume_page meta cache_limit fresh min_id count items).2.2 := by
  intro items
  induction items with
  | nil =>
      intro fresh min_id count
      simp [consume_page]
  | cons item rest ih =>
      intro fresh min_id count
      simp only [consume_page]
      split_ifs with h
      · simp only [List.length_append, List.length_cons, List.length_nil]
        omega
      · have hrec := ih (fresh ++ [convert_wire_message meta item]) (some (match min_id with
          | some m => min m item.id
          | none => item.id)) (count + 1)
        simp only [List.length_append, List.length_cons, List.length_nil] at hrec ⊢
        omega
theorem fetch_loop_isSome (meta : Int → Option ApplicationMeta)
    (server : Nat → Option Int → Except String (List GotifyMessageWire))
    (cache_limit : Nat) :
    ∀ (fuel : Nat) (fresh : List CachedMessage) (since : Option Int),
      cache_limit ≤ fresh.length + fuel →
      (fetch_loop meta server cache_limit (fuel + 1) fresh since).isSome := by
  intro fuel
  induction fuel with
  | zero =>
      intro fresh since hle
      simp only [fetch_loop]
      rw [if_neg (by omega)]
      simp
  | succ fuel ih =>
      intro fresh since hle
      simp only [fetch_loop]
      by_cases h1 : fresh.length < cache_limit
      · rw [if_pos h1]
        by_cases h2 : min (cache_limit - fresh.length) MAX_API_PAGE_LIMIT = 0
        · rw [if_pos h2]
          simp
        · rw [if_neg h2]
          cases hs : server (min (cache_limit - fresh.length) MAX_API_PAGE_LIMIT) since with
          | error e => simp
          | ok items =>
              by_cases hemp : items.isEmpty
              · simp [hemp]
              · have hemp2 : items.isEmpty = false := by simpa using hemp
                simp only [hemp2, Bool.false_eq_true, if_false]
                have hcount := consume_page_count meta cache_limit items fresh none 0
                rcases hcp : consume_page meta cache_limit fresh none 0 items with
                  ⟨fresh2, minid, cnt⟩
                rw [hcp] at hcount
                obtain ⟨-, hlen2⟩ := hcount
                dsimp only at hlen2
                dsimp only
                cases minid with
                | none => simp
                | some m =>
                    dsimp only
                    by_cases hsince : since = some m
                    · simp [hsince]
                    · rw [if_neg hsince]
                      by_cases hcnt : cnt < min (cache_limit - fresh.length) MAX_API_PAGE_LIMIT
                      · rw [if_pos hcnt]
                        simp
                      · rw [if_neg hcnt]
                        apply ih
                        have hpage : 1 ≤ min (cache_limit - fresh.length) MAX_API_PAGE_LIMIT := by
                          omega
                        omega
      · rw [if_neg h1]
        simp
/-- C6: for every (possibly adversarial) server response function, the pagination loop
of `fetch_recent_messages` terminates within `cache_limit + 1` requests (the result is
`some`, never the fuel-exhaustion marker `none`), and on every non-error outcome the
accumulated messages are handed to `replace_message_cache` after normalization. -/
theorem fetch_pagination_terminates (parse : String → Option Int)
    (meta : Int → Option ApplicationMeta)
    (server : Nat → Option Int → Except String (List GotifyMessageWire))
    (cache_limit : Nat) (cache : List CachedMessage) :
    ∃ r, fetch_recent_messages parse meta server cache_limit cache = some r ∧
      ((∃ e, r = Except.error e) ∨
        ∃ acc, r = Except.ok (replace_message_cache parse cache_limit cache
          (normalize_fetched parse cache_limit acc))) := by
  have hsome := fetch_loop_isSome meta server cache_limit cache_limit [] none (by simp)
  rcases hres : fetch_loop meta server cache_limit (cache_limit + 1) [] none with _ | res
  · rw [hres] at hsome
    simp at hsome
  · cases res with
    | error e =>
        refine ⟨Except.error e, ?_, Or.inl ⟨e, rfl⟩⟩
        simp [fetch_recent_messages, hres]
    | ok fresh =>
        refine ⟨Except.ok (replace_message_cache parse cache_limit cache
          (normalize_fetched parse cache_limit fresh)), ?_, Or.inr ⟨fresh, rfl⟩⟩
        simp [fetch_recent_messages, hres]
theorem messages_file_ne_backup (config_dir suffix : String) :
    messages_file config_dir ≠ corrupt_backup_path config_dir suffix := by
  intro h
  have hlen := congrArg String.length h
  have h14 : ("/messages.json" : String).length = 14 := rfl
  have h18 : ("/messages.corrupt-" : String).length = 18 := rfl
  have h5 : (".json" : String).length = 5 := rfl
  simp only [messages_file, corrupt_backup_path, String.length_append, h14, h18, h5] at hlen
  omega
/-- C7: for a cache file whose contents do not decode as a message list,
`load_messages_from_disk` still returns `Ok` with an empty cache and renames the
corrupt file aside — afterwards the original path is gone and the backup path (the
original path with a `corrupt-<suffix>.json` extension) holds the old contents
unchanged; a missing file likewise yields `Ok` with an empty cache and an untouched
filesystem. -/
theorem corrupt_cache_load (decode : String → Option (List CachedMessage))
    (suffix config_dir : String) (fs : String → Option String) :
    (fs (messages_file config_dir) = none →
      load_messages_from_disk decode suffix config_dir fs = (Except.ok [], fs)) ∧
    (∀ content, fs (messages_file config_dir) = some content → decode content = none →
      (load_messages_from_disk decode suffix config_dir fs).1 = Except.ok [] ∧
      (load_messages_from_disk decode suffix config_dir fs).2 (messages_file config_dir)
        = none ∧
      (load_messages_from_disk decode suffix config_dir fs).2
        (corrupt_backup_path config_dir suffix) = some content) := by
  constructor
  · intro h
    simp [load_messages_from_disk, h]
  · intro content hc hd
    have hne := messages_file_ne_backup config_dir suffix
    simp only [load_messages_from_disk, hc, hd]
    refine ⟨?_, ?_, ?_⟩
    · simp
    · simp [hne, hc]
    · simp
/-- C7 witness: loading from a filesystem whose cache file holds undecodable bytes
yields an empty cache, removes the original file and leaves the bytes at the backup
path. -/
theorem corrupt_cache_load_witness :
    (load_messages_from_disk (fun _ => none) "1" "d" sample_corrupt_fs).1
      = Except.ok [] ∧
    (load_messages_from_disk (fun _ => none) "1" "d" sample_corrupt_fs).2
      (messages_file "d") = none ∧
    (load_messages_from_disk (fun _ => none) "1" "d" sample_corrupt_fs).2
      (corrupt_backup_path "d" "1") = some "garbage" :=
  (corrupt_cache_load (fun _ => none) "1" "d" sample_corrupt_fs).2 "garbage"
    (by decide) rfl
end Gotify
